import Mathlib

/-!
Verification of the `text-position` range algebra (`src/range.rs`).

The crate's generic range type `TextRange<P>` stores a start position `index`
and a length `len`, both of a position representation `P`.  The concrete
position representations and the `TextPosition` trait live in the crate's
position module, which is not part of the sources under verification; they
are modelled here from the specification's capability contract (§4.1):
a zero value, a total order, addition of a position and a length, and
saturating subtraction producing a non-negative length.
-/

/-- Modelled from the spec: the `TextPosition` trait of the position module
(not among the given sources).  Per §4.1 a position representation provides a
zero value ("the start of the text"), addition of a position and a
same-representation length producing a position, and saturating subtraction of
two positions producing a non-negative length (clamped to the zero value when
the subtrahend is at or past the minuend).  The total order required by the
contract is the ambient `LinearOrder`.  The law fields record exactly the
semantics the contract states: positions are at or after the zero value,
adding a (non-negative) length never moves a position backwards, addition and
saturating subtraction cancel, and subtraction clamps to zero instead of
underflowing. -/
class TextPosition (P : Type) [LinearOrder P] where
  ZERO : P
  add : P → P → P
  saturating_sub : P → P → P
  zero_le : ∀ a : P, ZERO ≤ a
  le_add : ∀ a l : P, a ≤ add a l
  add_saturating_sub : ∀ a b : P, a ≤ b → add a (saturating_sub b a) = b
  saturating_sub_add : ∀ a l : P, saturating_sub (add a l) a = l
  saturating_sub_clamp : ∀ a b : P, b ≤ a → saturating_sub b a = ZERO

/-- Modelled from the spec: Rust's `PartialOrd<P>` bound on `TOtherPos` in
`TextRange::contains_inclusive` — a cross-representation comparison between a
position of type `Q` and a position of type `P` (§4.1: "a partial order
against *other* representations sufficient to answer is-before/at/after"). -/
class PartialOrdWith (Q : Type) (P : Type) where
  le : Q → P → Bool
  ge : Q → P → Bool

/-- Comparing a representation against itself is the representation's own
total order. -/
instance (P : Type) [LinearOrder P] : PartialOrdWith P P where
  le q p := decide (q ≤ p)
  ge q p := decide (p ≤ q)

/-- Modelled from the spec: the raw byte-offset representation (`Utf8Index`),
a single non-negative offset. -/
structure Utf8Index where
  index : Nat
deriving DecidableEq

/-- Modelled from the spec: the UTF-8 row/column representation
(`Utf8Position`), zero-based row and column, ordered lexicographically. -/
structure Utf8Position where
  row : Nat
  column : Nat
deriving DecidableEq

/-- Modelled from the spec: the UTF-16 row/column representation
(`Utf16Position`), zero-based row and column, ordered lexicographically. -/
structure Utf16Position where
  row : Nat
  column : Nat
deriving DecidableEq

/-- Modelled from the spec: the composite representation
(`CompositePosition`), which tracks the row together with both the
UTF-8-byte-based column and the UTF-16-based column of the same location. -/
structure CompositePosition where
  row : Nat
  column8 : Nat
  column16 : Nat
deriving DecidableEq

namespace Utf8Index

instance : LinearOrder Utf8Index :=
  LinearOrder.lift' Utf8Index.index (fun a b h => by cases a; cases b; simpa using h)

theorem le_def (a b : Utf8Index) : a ≤ b ↔ a.index ≤ b.index := Iff.rfl

instance : TextPosition Utf8Index where
  ZERO := ⟨0⟩
  add a l := ⟨a.index + l.index⟩
  saturating_sub b a := ⟨b.index - a.index⟩
  zero_le a := by simp [le_def]
  le_add a l := by simp [le_def]
  add_saturating_sub a b h := by
    cases a; cases b
    simp only [le_def] at h
    simp only [Utf8Index.mk.injEq]
    omega
  saturating_sub_add a l := by
    cases a; cases l
    simp only [Utf8Index.mk.injEq]
    omega
  saturating_sub_clamp a b h := by
    cases a; cases b
    simp only [le_def] at h
    simp only [Utf8Index.mk.injEq]
    omega

end Utf8Index

namespace Utf8Position

def toPair (p : Utf8Position) : Lex (Nat × Nat) := toLex (p.row, p.column)

instance : LinearOrder Utf8Position :=
  LinearOrder.lift' toPair (fun a b h => by
    cases a; cases b
    simp only [toPair, toLex_inj, Prod.mk.injEq] at h
    simp [h.1, h.2])

theorem mk_le_mk_utf8 {r1 c1 r2 c2 : Nat} :
    (⟨r1, c1⟩ : Utf8Position) ≤ ⟨r2, c2⟩ ↔ r1 < r2 ∨ (r1 = r2 ∧ c1 ≤ c2) :=
  Prod.Lex.le_iff _ _

/-- Modelled from the spec: adding a row/column displacement.  A displacement
inside the same row advances the column; a displacement spanning rows moves to
the later row and lands at the displacement's column. -/
def add (a l : Utf8Position) : Utf8Position :=
  if l.row = 0 then ⟨a.row, a.column + l.column⟩ else ⟨a.row + l.row, l.column⟩

/-- Modelled from the spec: saturating subtraction of row/column positions,
clamping to the zero value when the subtrahend is at or past the minuend. -/
def saturating_sub (b a : Utf8Position) : Utf8Position :=
  if b.row = a.row then ⟨0, b.column - a.column⟩
  else if a.row < b.row then ⟨b.row - a.row, b.column⟩
  else ⟨0, 0⟩

instance : TextPosition Utf8Position where
  ZERO := ⟨0, 0⟩
  add := add
  saturating_sub := saturating_sub
  zero_le a := by
    cases a
    rw [mk_le_mk_utf8]
    omega
  le_add a l := by
    cases a; cases l
    simp only [add]
    split_ifs with h <;> rw [mk_le_mk_utf8] <;> omega
  add_saturating_sub a b h := by
    cases a; cases b
    rw [mk_le_mk_utf8] at h
    simp only [add, saturating_sub]
    split_ifs <;> (try simp_all) <;> omega
  saturating_sub_add a l := by
    cases a; cases l
    simp only [add, saturating_sub]
    split_ifs <;> (try simp_all) <;> omega
  saturating_sub_clamp a b h := by
    cases a; cases b
    rw [mk_le_mk_utf8] at h
    simp only [saturating_sub]
    split_ifs <;> (try simp_all) <;> omega

end Utf8Position

namespace Utf16Position

def toPair (p : Utf16Position) : Lex (Nat × Nat) := toLex (p.row, p.column)

instance : LinearOrder Utf16Position :=
  LinearOrder.lift' toPair (fun a b h => by
    cases a; cases b
    simp only [toPair, toLex_inj, Prod.mk.injEq] at h
    simp [h.1, h.2])

theorem mk_le_mk_utf16 {r1 c1 r2 c2 : Nat} :
    (⟨r1, c1⟩ : Utf16Position) ≤ ⟨r2, c2⟩ ↔ r1 < r2 ∨ (r1 = r2 ∧ c1 ≤ c2) :=
  Prod.Lex.le_iff _ _

/-- Modelled from the spec: adding a row/column displacement, as for
`Utf8Position`. -/
def add (a l : Utf16Position) : Utf16Position :=
  if l.row = 0 then ⟨a.row, a.column + l.column⟩ else ⟨a.row + l.row, l.column⟩

/-- Modelled from the spec: saturating subtraction, as for `Utf8Position`. -/
def saturating_sub (b a : Utf16Position) : Utf16Position :=
  if b.row = a.row then ⟨0, b.column - a.column⟩
  else if a.row < b.row then ⟨b.row - a.row, b.column⟩
  else ⟨0, 0⟩

instance : TextPosition Utf16Position where
  ZERO := ⟨0, 0⟩
  add := add
  saturating_sub := saturating_sub
  zero_le a := by
    cases a
    rw [mk_le_mk_utf16]
    omega
  le_add a l := by
    cases a; cases l
    simp only [add]
    split_ifs with h <;> rw [mk_le_mk_utf16] <;> omega
  add_saturating_sub a b h := by
    cases a; cases b
    rw [mk_le_mk_utf16] at h
    simp only [add, saturating_sub]
    split_ifs <;> (try simp_all) <;> omega
  saturating_sub_add a l := by
    cases a; cases l
    simp only [add, saturating_sub]
    split_ifs <;> (try simp_all) <;> omega
  saturating_sub_clamp a b h := by
    cases a; cases b
    rw [mk_le_mk_utf16] at h
    simp only [saturating_sub]
    split_ifs <;> (try simp_all) <;> omega

end Utf16Position

namespace CompositePosition

def toTriple (p : CompositePosition) : Lex (Nat × Lex (Nat × Nat)) :=
  toLex (p.row, toLex (p.column8, p.column16))

instance : LinearOrder CompositePosition :=
  LinearOrder.lift' toTriple (fun a b h => by
    cases a; cases b
    simp only [toTriple, toLex_inj, Prod.mk.injEq] at h
    simp [h.1, h.2.1, h.2.2])

theorem mk_le_mk_composite {r1 a1 b1 r2 a2 b2 : Nat} :
    (⟨r1, a1, b1⟩ : CompositePosition) ≤ ⟨r2, a2, b2⟩ ↔
      r1 < r2 ∨ (r1 = r2 ∧ (a1 < a2 ∨ (a1 = a2 ∧ b1 ≤ b2))) := by
  refine Iff.trans (Prod.Lex.le_iff _ _) ?_
  constructor
  · rintro (h | ⟨h1, h2⟩)
    · exact Or.inl h
    · exact Or.inr ⟨h1, (Prod.Lex.le_iff _ _).mp h2⟩
  · rintro (h | ⟨h1, h2⟩)
    · exact Or.inl h
    · exact Or.inr ⟨h1, (Prod.Lex.le_iff _ _).mpr h2⟩

/-- Modelled from the spec: adding a composite displacement.  The composite
tracks the row together with both column encodings; addition follows the same
convention the row/column pair types use, applied at each level of the
lexicographic hierarchy (row, then UTF-8 column, then UTF-16 column): a
component of the displacement that moves to a later row (or byte column)
lands at the displacement's value for the lower components. -/
def add (a l : CompositePosition) : CompositePosition :=
  if l.row = 0 then
    if l.column8 = 0 then ⟨a.row, a.column8, a.column16 + l.column16⟩
    else ⟨a.row, a.column8 + l.column8, l.column16⟩
  else ⟨a.row + l.row, l.column8, l.column16⟩

/-- Modelled from the spec: saturating subtraction of composite positions,
clamping to the zero value when the subtrahend is at or past the minuend. -/
def saturating_sub (b a : CompositePosition) : CompositePosition :=
  if b.row = a.row then
    if b.column8 = a.column8 then ⟨0, 0, b.column16 - a.column16⟩
    else if a.column8 < b.column8 then ⟨0, b.column8 - a.column8, b.column16⟩
    else ⟨0, 0, 0⟩
  else if a.row < b.row then ⟨b.row - a.row, b.column8, b.column16⟩
  else ⟨0, 0, 0⟩

instance : TextPosition CompositePosition where
  ZERO := ⟨0, 0, 0⟩
  add := add
  saturating_sub := saturating_sub
  zero_le a := by
    cases a
    rw [mk_le_mk_composite]
    omega
  le_add a l := by
    cases a; cases l
    simp only [add]
    split_ifs <;> rw [mk_le_mk_composite] <;> omega
  add_saturating_sub a b h := by
    cases a; cases b
    rw [mk_le_mk_composite] at h
    simp only [add, saturating_sub]
    split_ifs <;> (try simp_all) <;> omega
  saturating_sub_add a l := by
    cases a; cases l
    simp only [add, saturating_sub]
    split_ifs <;> (try simp_all) <;> omega
  saturating_sub_clamp a b h := by
    cases a; cases b
    rw [mk_le_mk_composite] at h
    simp only [saturating_sub]
    split_ifs <;> (try simp_all) <;> omega

end CompositePosition

/-- Rust's `std::ops::Range<P>`, the conventional half-open interval
`[start, end)` that `TextRange` converts from and to.  (Rust's field `end` is
written `«end»` because `end` is a Lean keyword.) -/
structure StdRange (P : Type) where
  start : P
  «end» : P
deriving DecidableEq

/-- `TextRange<P>` from `src/range.rs`: a span of text stored as a start
position `index` and a size `len`. -/
structure TextRange (P : Type) where
  index : P
  len : P
deriving DecidableEq

namespace TextRange

variable {P : Type} [LinearOrder P] [TextPosition P]

/-- `TextRange::ZERO`. -/
def ZERO : TextRange P := ⟨TextPosition.ZERO, TextPosition.ZERO⟩

/-- `TextRange::at`: create a range. -/
def «at» (index len : P) : TextRange P := ⟨index, len⟩

/-- `TextRange::empty`: create an empty range pointing to a position. -/
def empty (index : P) : TextRange P := ⟨index, TextPosition.ZERO⟩

/-- `TextRange::up_to`: create a range from origin to end. -/
def up_to (len : P) : TextRange P := ⟨TextPosition.ZERO, len⟩

/-- `TextRange::start`. -/
def start (r : TextRange P) : P := r.index

/-- `TextRange::end`: `self.index + self.len`. -/
def «end» (r : TextRange P) : P := TextPosition.add r.index r.len

/-- `From<Range<P>> for TextRange<P>`:
`index = start`, `len = end.saturating_sub(start)`. -/
def ofStdRange (range : StdRange P) : TextRange P :=
  ⟨range.start, TextPosition.saturating_sub range.«end» range.start⟩

/-- `From<TextRange<P>> for Range<P>`: `start = index`, `end = index + len`. -/
def toStdRange (r : TextRange P) : StdRange P :=
  ⟨r.index, TextPosition.add r.index r.len⟩

/-- `TextRange::to_start`: `Self::empty(self.end())` (as written in the
source; its doc comment says "empty range pointing to the start position"). -/
def to_start (r : TextRange P) : TextRange P := empty r.«end»

/-- `TextRange::to_end`: `Self::empty(self.end())`. -/
def to_end (r : TextRange P) : TextRange P := empty r.«end»

/-- `TextRange::contains_inclusive`:
`pos >= self.index && pos <= self.end()`, where `pos` may be of another
position representation comparable with `P`. -/
def contains_inclusive {Q : Type} (r : TextRange P) (pos : Q)
    [PartialOrdWith Q P] : Bool :=
  PartialOrdWith.ge pos r.index && PartialOrdWith.le pos r.«end»

/-- `TextRange::covers`:
`self.start() <= other.start() && other.end() <= self.end()`. -/
def covers (r other : TextRange P) : Bool :=
  decide (r.start ≤ other.start) && decide (other.«end» ≤ r.«end»)

/-- `TextRange::is_empty`: `self.len == P::ZERO`. -/
def is_empty (r : TextRange P) : Bool :=
  r.len = TextPosition.ZERO

/-- `TextRange::join`: `Self::from(start..end)` with
`start = self.start().min(other.start())` and
`end = self.end().max(other.end())`. -/
def join (r other : TextRange P) : TextRange P :=
  ofStdRange ⟨min r.start other.start, max r.«end» other.«end»⟩

/-- `TextRange::meet`: `Self::from(start..end)` with
`end = self.end().min(other.end())` (computed first in the source) and
`start = self.start().max(other.start())`. -/
def meet (r other : TextRange P) : TextRange P :=
  ofStdRange ⟨max r.start other.start, min r.«end» other.«end»⟩

end TextRange

/-- Rust's `Display` trait, shallowly embedded: formatting to a `String`. -/
class Display (α : Type) where
  display : α → String

/-- Rust's `Debug` trait, shallowly embedded: formatting to a `String`. -/
class Debug (α : Type) where
  debug : α → String

/-- Modelled from the spec: `Display for Utf8Index` of the position module
(not among the given sources) — a raw offset is rendered in "the
representation's own numeric textual form" (§4.3). -/
instance : Display Utf8Index where
  display p := toString p.index

/-- `fn fmt_gnu` from `src/range.rs`: renders
`"{start_row+1}.{start_column+1}-{end_row+1}.{end_column+1}"`, converting the
zero-based components to one-based display. -/
def fmt_gnu (start_row start_column end_row end_column : Nat) : String :=
  toString (start_row + 1) ++ "." ++ toString (start_column + 1) ++ "-" ++
    toString (end_row + 1) ++ "." ++ toString (end_column + 1)

/-- `Display for TextRange<Utf8Index>`: `"{}..{}"` of `start()` and `end()`. -/
instance : Display (TextRange Utf8Index) where
  display r := Display.display r.start ++ ".." ++ Display.display r.«end»

/-- `Debug for TextRange<Utf8Index>`: delegates to `Display::fmt`. -/
instance : Debug (TextRange Utf8Index) where
  debug r := Display.display r

/-- `Display for TextRange<Utf8Position>`:
`fmt_gnu(start.row, start.column, end.row, end.column)`. -/
instance : Display (TextRange Utf8Position) where
  display r := fmt_gnu r.start.row r.start.column r.«end».row r.«end».column

/-- `Debug for TextRange<Utf8Position>`: delegates to `Display::fmt`. -/
instance : Debug (TextRange Utf8Position) where
  debug r := Display.display r

/-- `Display for TextRange<Utf16Position>`:
`fmt_gnu(start.row, start.column, end.row, end.column)`. -/
instance : Display (TextRange Utf16Position) where
  display r := fmt_gnu r.start.row r.start.column r.«end».row r.«end».column

/-- `Debug for TextRange<Utf16Position>`: delegates to `Display::fmt`. -/
instance : Debug (TextRange Utf16Position) where
  debug r := Display.display r

/-- `Display for TextRange<CompositePosition>`:
`fmt_gnu(start.row, start.column8, end.row, end.column8)` — the UTF-8 byte
column, not the UTF-16 column. -/
instance : Display (TextRange CompositePosition) where
  display r := fmt_gnu r.start.row r.start.column8 r.«end».row r.«end».column8

/-- `Debug for TextRange<CompositePosition>`: delegates to `Display::fmt`. -/
instance : Debug (TextRange CompositePosition) where
  debug r := Display.display r

/-- A concrete composite-representation range whose endpoint has different
UTF-8 and UTF-16 columns (end column8 = 4, column16 = 2), to observe which
column the formatter renders. -/
def compositeColumnsExample : TextRange CompositePosition :=
  TextRange.ofStdRange ⟨⟨0, 0, 0⟩, ⟨0, 4, 2⟩⟩

namespace TextRange

variable {P : Type} [LinearOrder P] [TextPosition P]

/-- Every range's end is at or after its start: `end = index + len` and
adding a length never moves a position backwards. -/
theorem start_le_end (r : TextRange P) : r.start ≤ r.«end» :=
  TextPosition.le_add r.index r.len

theorem join_start (r1 r2 : TextRange P) :
    (r1.join r2).start = min r1.start r2.start := rfl

theorem join_end (r1 r2 : TextRange P) :
    (r1.join r2).«end» = max r1.«end» r2.«end» :=
  TextPosition.add_saturating_sub _ _
    (le_trans (min_le_left _ _) (le_trans (start_le_end r1) (le_max_left _ _)))

theorem meet_start (r1 r2 : TextRange P) :
    (r1.meet r2).start = max r1.start r2.start := rfl

theorem meet_end (r1 r2 : TextRange P)
    (h : max r1.start r2.start ≤ min r1.«end» r2.«end») :
    (r1.meet r2).«end» = min r1.«end» r2.«end» :=
  TextPosition.add_saturating_sub _ _ h

theorem meet_len_of_disjoint (r1 r2 : TextRange P)
    (h : min r1.«end» r2.«end» ≤ max r1.start r2.start) :
    (r1.meet r2).len = TextPosition.ZERO :=
  TextPosition.saturating_sub_clamp _ _ h

end TextRange

/-- Claim C2: converting a half-open interval `[a, b)` with `a ≤ b` into a
range and back yields exactly `[a, b)` again: the start is `a` and the end is
`b`. -/
theorem claim_C2_interval_roundtrip {P : Type} [LinearOrder P] [TextPosition P]
    (a b : P) (h : a ≤ b) :
    TextRange.toStdRange (TextRange.ofStdRange ⟨a, b⟩) = ⟨a, b⟩ :=
  congrArg (StdRange.mk a) (TextPosition.add_saturating_sub a b h)

/-- Witness for C2 at the byte offsets 2 and 5. -/
theorem claim_C2_witness :
    TextRange.toStdRange (TextRange.ofStdRange ⟨(⟨2⟩ : Utf8Index), ⟨5⟩⟩)
      = ⟨⟨2⟩, ⟨5⟩⟩ :=
  claim_C2_interval_roundtrip (⟨2⟩ : Utf8Index) ⟨5⟩ (by decide)

/-- Claim C3: `join` is commutative and associative, `r.join(r) = r`, and the
joined range's start and end are the minimum of the inputs' starts and the
maximum of the inputs' ends. -/
theorem claim_C3_join_properties {P : Type} [LinearOrder P] [TextPosition P]
    (r1 r2 r3 : TextRange P) :
    r1.join r2 = r2.join r1 ∧
    (r1.join r2).join r3 = r1.join (r2.join r3) ∧
    r1.join r1 = r1 ∧
    (r1.join r2).start = min r1.start r2.start ∧
    (r1.join r2).«end» = max r1.«end» r2.«end» := by
  refine ⟨?_, ?_, ?_, TextRange.join_start r1 r2, TextRange.join_end r1 r2⟩
  · show TextRange.ofStdRange ⟨min r1.start r2.start, max r1.«end» r2.«end»⟩
      = TextRange.ofStdRange ⟨min r2.start r1.start, max r2.«end» r1.«end»⟩
    rw [min_comm, max_comm]
  · show TextRange.ofStdRange
        ⟨min (r1.join r2).start r3.start, max ((r1.join r2).«end») r3.«end»⟩
      = TextRange.ofStdRange
        ⟨min r1.start (r2.join r3).start, max r1.«end» ((r2.join r3).«end»)⟩
    rw [TextRange.join_start, TextRange.join_end, TextRange.join_start,
      TextRange.join_end, min_assoc, max_assoc]
  · show TextRange.ofStdRange ⟨min r1.start r1.start, max r1.«end» r1.«end»⟩ = r1
    rw [min_self, max_self]
    show (⟨r1.index, TextPosition.saturating_sub
        (TextPosition.add r1.index r1.len) r1.index⟩ : TextRange P) = r1
    rw [TextPosition.saturating_sub_add]

/-- Claim C5: the length of every range produced by the public constructors
and operations is at or above the representation's zero value; the length is
derived by saturating subtraction, never checked at runtime. -/
theorem claim_C5_len_nonneg {P : Type} [LinearOrder P] [TextPosition P] :
    (∀ i l : P, TextPosition.ZERO ≤ (TextRange.«at» i l).len) ∧
    (∀ i : P, TextPosition.ZERO ≤ (TextRange.empty i).len) ∧
    (∀ l : P, TextPosition.ZERO ≤ (TextRange.up_to l).len) ∧
    TextPosition.ZERO ≤ (TextRange.ZERO : TextRange P).len ∧
    (∀ r1 r2 : TextRange P, TextPosition.ZERO ≤ (r1.join r2).len) ∧
    (∀ r1 r2 : TextRange P, TextPosition.ZERO ≤ (r1.meet r2).len) ∧
    (∀ i : StdRange P, TextPosition.ZERO ≤ (TextRange.ofStdRange i).len) :=
  ⟨fun _ l => TextPosition.zero_le l, fun _ => TextPosition.zero_le _,
    fun l => TextPosition.zero_le l, TextPosition.zero_le _,
    fun _ _ => TextPosition.zero_le _, fun _ _ => TextPosition.zero_le _,
    fun _ => TextPosition.zero_le _⟩

/-- Claim C8: converting a malformed half-open interval with `end < start`
never signals an error: the result is the zero-length range at the interval's
start, because the length is computed by saturating subtraction, which clamps
to zero. -/
theorem claim_C8_malformed_interval {P : Type} [LinearOrder P] [TextPosition P]
    (s e : P) (h : e < s) :
    TextRange.ofStdRange ⟨s, e⟩ = TextRange.empty s :=
  congrArg (TextRange.mk s) (TextPosition.saturating_sub_clamp s e (le_of_lt h))

/-- Witness for C8 at the malformed byte-offset interval `[5, 3)`. -/
theorem claim_C8_witness :
    TextRange.ofStdRange ⟨(⟨5⟩ : Utf8Index), ⟨3⟩⟩ = TextRange.empty ⟨5⟩ :=
  claim_C8_malformed_interval (⟨5⟩ : Utf8Index) ⟨3⟩ (by decide)

/-- Claim C9: `to_start` and `to_end` return the same value, the zero-length
range anchored at the range's end position. -/
theorem claim_C9_to_start_to_end {P : Type} [LinearOrder P] [TextPosition P]
    (r : TextRange P) :
    r.to_start = r.to_end ∧ r.to_start = TextRange.empty r.«end» :=
  ⟨rfl, rfl⟩

/-- Claim C1 (evaluation at the failing input): meeting the disjoint
byte-offset ranges `at(2,4)` and `at(9,1)` yields the empty range at index 9
(the maximum of the two starts), not the empty range at index 2
(`r1.start()`) that the claim — and the `meet` doc comment and doctest in
`src/range.rs` — describe; the result also differs from
`first_range.to_start()`, against which the doctest asserts equality. -/
theorem claim_C1_meet_disjoint_at_failing_input :
    TextRange.meet (TextRange.«at» (⟨2⟩ : Utf8Index) ⟨4⟩) (TextRange.«at» ⟨9⟩ ⟨1⟩)
        = TextRange.«at» ⟨9⟩ ⟨0⟩ ∧
      TextRange.meet (TextRange.«at» (⟨2⟩ : Utf8Index) ⟨4⟩) (TextRange.«at» ⟨9⟩ ⟨1⟩)
        ≠ TextRange.empty ⟨2⟩ ∧
      TextRange.meet (TextRange.«at» (⟨2⟩ : Utf8Index) ⟨4⟩) (TextRange.«at» ⟨9⟩ ⟨1⟩)
        ≠ TextRange.to_start (TextRange.«at» (⟨2⟩ : Utf8Index) ⟨4⟩) := by
  refine ⟨by decide, by decide, by decide⟩

/-- Claim C4: `meet` is commutative; for overlapping ranges the result is a
sub-range of both operands; for disjoint ranges the result is empty. -/
theorem claim_C4_meet_properties {P : Type} [LinearOrder P] [TextPosition P]
    (r1 r2 : TextRange P) :
    r1.meet r2 = r2.meet r1 ∧
    (¬(r1.«end» < r2.start ∨ r2.«end» < r1.start) →
      r1.covers (r1.meet r2) = true ∧ r2.covers (r1.meet r2) = true) ∧
    ((r1.«end» < r2.start ∨ r2.«end» < r1.start) →
      (r1.meet r2).is_empty = true) := by
  refine ⟨?_, ?_, ?_⟩
  · show TextRange.ofStdRange ⟨max r1.start r2.start, min r1.«end» r2.«end»⟩
      = TextRange.ofStdRange ⟨max r2.start r1.start, min r2.«end» r1.«end»⟩
    rw [max_comm, min_comm]
  · intro h
    rw [not_or, not_lt, not_lt] at h
    have hms : max r1.start r2.start ≤ min r1.«end» r2.«end» :=
      max_le (le_min (TextRange.start_le_end r1) h.2)
        (le_min h.1 (TextRange.start_le_end r2))
    constructor
    · simp only [TextRange.covers, Bool.and_eq_true, decide_eq_true_eq]
      exact ⟨TextRange.meet_start r1 r2 ▸ le_max_left _ _,
        (TextRange.meet_end r1 r2 hms).le.trans (min_le_left _ _)⟩
    · simp only [TextRange.covers, Bool.and_eq_true, decide_eq_true_eq]
      exact ⟨TextRange.meet_start r1 r2 ▸ le_max_right _ _,
        (TextRange.meet_end r1 r2 hms).le.trans (min_le_right _ _)⟩
  · intro h
    have hlt : min r1.«end» r2.«end» ≤ max r1.start r2.start := by
      rcases h with h | h
      · exact le_trans (min_le_left _ _) (le_trans h.le (le_max_right _ _))
      · exact le_trans (min_le_right _ _) (le_trans h.le (le_max_left _ _))
    simp only [TextRange.is_empty, TextRange.meet_len_of_disjoint r1 r2 hlt,
      decide_eq_true_eq]

/-- Witness for C4: the overlap branch at the byte-offset ranges `at(2,4)`
and `at(4,4)`, and the disjoint branch at `at(2,4)` and `at(9,1)`. -/
theorem claim_C4_witness :
    (TextRange.covers (TextRange.«at» (⟨2⟩ : Utf8Index) ⟨4⟩)
        (TextRange.meet (TextRange.«at» ⟨2⟩ ⟨4⟩) (TextRange.«at» ⟨4⟩ ⟨4⟩)) = true ∧
      TextRange.covers (TextRange.«at» (⟨4⟩ : Utf8Index) ⟨4⟩)
        (TextRange.meet (TextRange.«at» ⟨2⟩ ⟨4⟩) (TextRange.«at» ⟨4⟩ ⟨4⟩)) = true) ∧
    TextRange.is_empty
      (TextRange.meet (TextRange.«at» (⟨2⟩ : Utf8Index) ⟨4⟩) (TextRange.«at» ⟨9⟩ ⟨1⟩))
      = true :=
  ⟨(claim_C4_meet_properties (TextRange.«at» (⟨2⟩ : Utf8Index) ⟨4⟩)
        (TextRange.«at» ⟨4⟩ ⟨4⟩)).2.1 (by decide),
    (claim_C4_meet_properties (TextRange.«at» (⟨2⟩ : Utf8Index) ⟨4⟩)
        (TextRange.«at» ⟨9⟩ ⟨1⟩)).2.2 (by decide)⟩

/-- Claim C6: for every valid range (end at or after start), both endpoints
are inside the range under `contains_inclusive`, the end boundary
inclusively. -/
theorem claim_C6_contains_endpoints {P : Type} [LinearOrder P] [TextPosition P]
    (r : TextRange P) (h : r.start ≤ r.«end») :
    r.contains_inclusive r.start = true ∧ r.contains_inclusive r.«end» = true := by
  constructor
  · show (decide (r.index ≤ r.start) && decide (r.start ≤ r.«end»)) = true
    simp only [Bool.and_eq_true, decide_eq_true_eq]
    exact ⟨le_refl _, h⟩
  · show (decide (r.index ≤ r.«end») && decide (r.«end» ≤ r.«end»)) = true
    simp only [Bool.and_eq_true, decide_eq_true_eq]
    exact ⟨h, le_refl _⟩

/-- Witness for C6 at the byte-offset range `at(2,3)`. -/
theorem claim_C6_witness :
    TextRange.contains_inclusive (TextRange.«at» (⟨2⟩ : Utf8Index) ⟨3⟩)
        (TextRange.start (TextRange.«at» (⟨2⟩ : Utf8Index) ⟨3⟩)) = true ∧
      TextRange.contains_inclusive (TextRange.«at» (⟨2⟩ : Utf8Index) ⟨3⟩)
        (TextRange.«end» (TextRange.«at» (⟨2⟩ : Utf8Index) ⟨3⟩)) = true :=
  claim_C6_contains_endpoints (TextRange.«at» (⟨2⟩ : Utf8Index) ⟨3⟩) (by decide)

/-- Claim C7: ranges of row/column-bearing representations are rendered as
`"R1.C1-R2.C2"` with each zero-based stored component incremented by one; the
composite representation renders the UTF-8-byte-based column (`column8`), not
the UTF-16 column; the zero UTF-8 range renders as `"1.1-1.1"` and the range
from `(0,7)` to `(0,12)` renders as `"1.8-1.13"`. -/
theorem claim_C7_display_gnu :
    (∀ r : TextRange Utf8Position, Display.display r =
      toString (r.start.row + 1) ++ "." ++ toString (r.start.column + 1) ++ "-" ++
        toString (r.«end».row + 1) ++ "." ++ toString (r.«end».column + 1)) ∧
    (∀ r : TextRange Utf16Position, Display.display r =
      toString (r.start.row + 1) ++ "." ++ toString (r.start.column + 1) ++ "-" ++
        toString (r.«end».row + 1) ++ "." ++ toString (r.«end».column + 1)) ∧
    (∀ r : TextRange CompositePosition, Display.display r =
      toString (r.start.row + 1) ++ "." ++ toString (r.start.column8 + 1) ++ "-" ++
        toString (r.«end».row + 1) ++ "." ++ toString (r.«end».column8 + 1)) ∧
    Display.display (TextRange.ZERO : TextRange Utf8Position) = "1.1-1.1" ∧
    Display.display
      (TextRange.ofStdRange ⟨(⟨0, 7⟩ : Utf8Position), ⟨0, 12⟩⟩) = "1.8-1.13" ∧
    Display.display compositeColumnsExample = "1.1-1.5" ∧
    Display.display compositeColumnsExample ≠
      fmt_gnu compositeColumnsExample.start.row
        compositeColumnsExample.start.column16
        (TextRange.«end» compositeColumnsExample).row
        (TextRange.«end» compositeColumnsExample).column16 := by
  refine ⟨fun r => rfl, fun r => rfl, fun r => rfl, by decide, rfl, rfl, by decide⟩

/-- Claim C10: for each of the four concrete range instantiations, `Debug`
formatting produces exactly the same string as `Display` formatting, for
every range value (the `Debug` implementations delegate to `Display`). -/
theorem claim_C10_debug_eq_display :
    (∀ r : TextRange Utf8Index, Debug.debug r = Display.display r) ∧
    (∀ r : TextRange Utf8Position, Debug.debug r = Display.display r) ∧
    (∀ r : TextRange Utf16Position, Debug.debug r = Display.display r) ∧
    (∀ r : TextRange CompositePosition, Debug.debug r = Display.display r) :=
  ⟨fun _ => rfl, fun _ => rfl, fun _ => rfl, fun _ => rfl⟩
